import Mathlib

/-!
Shallow embedding of the vsync (batched vectored synchronous) I/O engine from
`src/engines/sync.c`, together with proofs about its batching, commit and
completion-resolution behaviour.

Modelling conventions:
* Machine integers are modelled as `Nat`.  File offsets and transfer lengths
  are bounded far below `2 ^ 64` in any execution, so `u64` additions such as
  `last_offset = io_u->offset + io_u->xfer_buflen` are modelled as exact
  natural addition; the `-1ULL` sentinel stored at engine initialisation is
  kept as the literal `2 ^ 64 - 1`.
* A `ssize_t` value returned by a syscall is `-1` (failure, with `errno` set)
  or a non-negative count; it is modelled as `Option Nat` (`none` = failure).
  The outcomes of the external syscalls (`lseek`, `readv`/`writev`, `fsync`)
  are inputs of the corresponding Lean functions, since the OS is an external
  collaborator.
* `td_verror(td, err, label)` reporting to the error sink is modelled by the
  list of `(errorCode, label)` pairs an operation emits.
* The `io_us` and `iovecs` arrays are `malloc`ed uninitialised with `iodepth`
  slots; they are modelled as lists that grow on first write to a fresh slot
  (`arraySet`).  Only the first `queued` slots are ever read by the engine.
* `fio_ro_check` and `dprint` are a debugging assertion and a logging call
  with no effect on the engine state; they are omitted.
-/

/-- Transfer direction of a request: `DDIR_READ`, `DDIR_WRITE`, `DDIR_SYNC`. -/
inductive Ddir where
  | read
  | write
  | sync
deriving DecidableEq

/-- One queued I/O request (`struct io_u`): direction, owning file identity
(the `io_u->file` pointer, as a number), byte offset, buffer address
(`xfer_buf`), requested length (`xfer_buflen`), and the two completion output
fields `resid` and `error`. -/
structure IoU where
  ddir : Ddir
  file : Nat
  offset : Nat
  buf : Nat
  buflen : Nat
  resid : Nat
  error : Nat
deriving DecidableEq

/-- Default request value, used only as the out-of-range default of list
indexing (a C array read never goes out of range in the engine). -/
def ioU0 : IoU := ⟨Ddir.read, 0, 0, 0, 0, 0, 0⟩

/-- `struct syncio_data`: the engine's only persistent state. -/
structure SyncioData where
  io_us : List IoU
  iovecs : List (Nat × Nat)
  queued : Nat
  queued_bytes : Nat
  last_offset : Nat
  last_file : Option Nat
  last_ddir : Ddir
deriving DecidableEq

/-- Labels of `td_verror` call sites in `sync.c`: `"lseek"`, `"xfer"`,
`"xfer vsync"`. -/
inductive Verr where
  | lseek
  | xfer
  | xferVsync
deriving DecidableEq

/-- C enum value `FIO_Q_COMPLETED`. -/
def FIO_Q_COMPLETED : Int := 0

/-- C enum value `FIO_Q_QUEUED`. -/
def FIO_Q_QUEUED : Int := 1

/-- C enum value `FIO_Q_BUSY`. -/
def FIO_Q_BUSY : Int := 2

/-- Write to slot `index` of a `malloc`ed array, modelled on lists: an
in-range write replaces, a write to the first fresh slot appends.  The engine
only ever writes at `index ≤ length`. -/
def arraySet (l : List α) (i : Nat) (x : α) : List α :=
  if i < l.length then l.set i x else l ++ [x]

/-- List indexing with an explicit default, mirroring a C array read. -/
def nthD (l : List α) (i : Nat) (d : α) : α :=
  match l, i with
  | [], _ => d
  | a :: _, 0 => a
  | _ :: t, i + 1 => nthD t i d

/-- `fio_io_end`: map a single syscall result onto one request's
`resid`/`error` fields.  `ret = some n` models a non-negative return value,
`ret = none` models `-1` with `errno = errno_`. -/
def fio_io_end (io_u : IoU) (ret : Option Nat) (errno_ : Nat) :
    IoU × Int × List (Nat × Verr) :=
  match ret with
  | some n =>
    if n ≠ io_u.buflen then
      ({ io_u with resid := io_u.buflen - n, error := 0 }, FIO_Q_COMPLETED, [])
    else if io_u.error ≠ 0 then
      (io_u, FIO_Q_COMPLETED, [(io_u.error, Verr.xfer)])
    else
      (io_u, FIO_Q_COMPLETED, [])
  | none =>
    let io2 := { io_u with error := errno_ }
    if io2.error ≠ 0 then
      (io2, FIO_Q_COMPLETED, [(io2.error, Verr.xfer)])
    else
      (io2, FIO_Q_COMPLETED, [])

/-- `fio_vsyncio_getevents`: if `min` is nonzero, return the queued count and
zero it; otherwise return 0.  `max` is ignored by the source.  Result:
(new state, returned event count). -/
def fio_vsyncio_getevents (sd : SyncioData) (minE maxE : Nat) :
    SyncioData × Nat :=
  if minE ≠ 0 then ({ sd with queued := 0 }, sd.queued) else (sd, 0)

/-- `fio_vsyncio_event`: fetch the queued request at slot `event`. -/
def fio_vsyncio_event (sd : SyncioData) (event : Nat) : IoU :=
  nthD sd.io_us event ioU0

/-- `fio_vsyncio_append`: mergeability test.  A `DDIR_SYNC` request never
merges; otherwise the request merges iff its offset, file and direction all
equal the tracked `last_offset` / `last_file` / `last_ddir`. -/
def fio_vsyncio_append (sd : SyncioData) (io_u : IoU) : Bool :=
  if io_u.ddir = Ddir.sync then
    false
  else if io_u.offset = sd.last_offset ∧ sd.last_file = some io_u.file ∧
      io_u.ddir = sd.last_ddir then
    true
  else
    false

/-- `fio_vsyncio_set_iov`: record request `io_u` at slot `index`, update the
iovec slot, the "last request" tracking fields, the cumulative byte count and
the queued count. -/
def fio_vsyncio_set_iov (sd : SyncioData) (io_u : IoU) (index : Nat) :
    SyncioData :=
  { sd with
    io_us := arraySet sd.io_us index io_u
    iovecs := arraySet sd.iovecs index (io_u.buf, io_u.buflen)
    last_offset := io_u.offset + io_u.buflen
    last_file := some io_u.file
    last_ddir := io_u.ddir
    queued_bytes := sd.queued_bytes + io_u.buflen
    queued := sd.queued + 1 }

/-- Result of `fio_vsyncio_queue`: new engine state, the (possibly mutated)
request, the `FIO_Q_*` return code, and emitted `td_verror` reports. -/
structure QueueOut where
  sd : SyncioData
  io_u : IoU
  ret : Int
  verrors : List (Nat × Verr)
deriving DecidableEq

/-- `fio_vsyncio_queue`: submit one request.  `fsyncRet`/`errno_` model the
result of the `fsync` syscall issued when a sync request is dispatched
immediately. -/
def fio_vsyncio_queue (iodepth : Nat) (sd : SyncioData) (io_u : IoU)
    (fsyncRet : Option Nat) (errno_ : Nat) : QueueOut :=
  if fio_vsyncio_append sd io_u = false then
    if sd.queued ≠ 0 then
      ⟨sd, io_u, FIO_Q_BUSY, []⟩
    else if io_u.ddir = Ddir.sync then
      let r := fio_io_end io_u fsyncRet errno_
      ⟨sd, r.1, r.2.1, r.2.2⟩
    else
      let sd2 := { sd with queued := 0, queued_bytes := 0 }
      ⟨fio_vsyncio_set_iov sd2 io_u 0, io_u, FIO_Q_QUEUED, []⟩
  else
    if sd.queued = iodepth then
      ⟨sd, io_u, FIO_Q_BUSY, []⟩
    else
      ⟨fio_vsyncio_set_iov sd io_u sd.queued, io_u, FIO_Q_QUEUED, []⟩

/-- The `bytes == -1` arm of the loop in `fio_vsyncio_end`: set every queued
request's `error` to the captured `errno`. -/
def markError (errno_ : Nat) : List IoU → List IoU
  | [] => []
  | io :: rest => { io with error := errno_ } :: markError errno_ rest

/-- The short-transfer arm of the loop in `fio_vsyncio_end`: walk the queued
requests in order, attributing `this_io = min pool buflen` bytes to each
request from the remaining pool, setting `resid = buflen - this_io` and
`error = 0`. -/
def shortResolve (pool : Nat) : List IoU → List IoU
  | [] => []
  | io :: rest =>
    let this_io := min pool io.buflen
    { io with resid := io.buflen - this_io, error := 0 } ::
      shortResolve (pool - this_io) rest

/-- Result of commit-side resolution: new state, return code, `td_verror`
reports. -/
structure EndOut where
  sd : SyncioData
  ret : Int
  verrors : List (Nat × Verr)
deriving DecidableEq

/-- `fio_vsyncio_end`: resolve a vectored transfer result across the queued
requests.  `bytes = some n` models a non-negative `ssize_t`, `bytes = none`
models `-1`; `errno_` is the `errno` value captured by `err = errno`. -/
def fio_vsyncio_end (sd : SyncioData) (bytes : Option Nat) (errno_ : Nat) :
    EndOut :=
  match bytes with
  | some n =>
    if n = sd.queued_bytes then
      ⟨sd, 0, []⟩
    else
      ⟨{ sd with
          io_us :=
            shortResolve n (sd.io_us.take sd.queued) ++
              sd.io_us.drop sd.queued },
        0, []⟩
  | none =>
    ⟨{ sd with
        io_us :=
          markError errno_ (sd.io_us.take sd.queued) ++
            sd.io_us.drop sd.queued },
      -(errno_ : Int), [(errno_, Verr.xferVsync)]⟩

/-- Outcomes of the external syscalls performed by `fio_vsyncio_commit`:
`lseekErr = some e` means `lseek` failed with `errno = e`; `xfer` is the
`readv`/`writev` result; `errno_` is the ambient `errno` read by
`fio_vsyncio_end`. -/
structure CommitEnv where
  lseekErr : Option Nat
  xfer : Option Nat
  errno_ : Nat
deriving DecidableEq

/-- Result of `fio_vsyncio_commit`: new state, return code, `td_verror`
reports, and whether the vectored transfer syscall was reached. -/
structure CommitOut where
  sd : SyncioData
  ret : Int
  verrors : List (Nat × Verr)
  didTransfer : Bool
deriving DecidableEq

/-- `fio_vsyncio_commit`: no-op on an empty batch; otherwise seek to the
first queued request's offset (failure aborts with `-errno` and a `td_verror`
report, before any transfer), then issue one `readv`/`writev` over the queued
iovecs and resolve its result with `fio_vsyncio_end`. -/
def fio_vsyncio_commit (sd : SyncioData) (env : CommitEnv) : CommitOut :=
  if sd.queued = 0 then
    ⟨sd, 0, [], false⟩
  else
    match env.lseekErr with
    | some e => ⟨sd, -(e : Int), [(e, Verr.lseek)], false⟩
    | none =>
      let r := fio_vsyncio_end sd env.xfer env.errno_
      ⟨r.sd, r.ret, r.verrors, true⟩

/-- `fio_vsyncio_init`: fresh state.  `memset 0` leaves `last_file = NULL`
and `last_ddir = DDIR_READ`; `last_offset` is then set to `-1ULL`. -/
def fio_vsyncio_init : SyncioData :=
  { io_us := []
    iovecs := []
    queued := 0
    queued_bytes := 0
    last_offset := 2 ^ 64 - 1
    last_file := none
    last_ddir := Ddir.read }

/-- States of the engine reachable from initialisation by any sequence of
submissions, commits and polls, with arbitrary caller requests and arbitrary
syscall outcomes. -/
inductive Reach (d : Nat) : SyncioData → Prop where
  | init : Reach d fio_vsyncio_init
  | queue (sd : SyncioData) (io_u : IoU) (fs : Option Nat) (e : Nat) :
      Reach d sd → Reach d (fio_vsyncio_queue d sd io_u fs e).sd
  | commit (sd : SyncioData) (env : CommitEnv) :
      Reach d sd → Reach d (fio_vsyncio_commit sd env).sd
  | getevents (sd : SyncioData) (mn mx : Nat) :
      Reach d sd → Reach d (fio_vsyncio_getevents sd mn mx).1

/-- The current batch: the first `queued` slots of the `io_us` array. -/
def batchOf (sd : SyncioData) : List IoU := sd.io_us.take sd.queued

/-- Remaining byte pool after attributing, in order, up to each listed length
from an initial pool — the specification's description of short-transfer
distribution. -/
def specRemainingPool (bytes : Nat) : List Nat → Nat
  | [] => bytes
  | l :: ls => specRemainingPool (bytes - min bytes l) ls

/-- The merge-relevant projection of a request: offset, length, file,
direction (everything except buffer address and completion fields). -/
structure Skel where
  offset : Nat
  buflen : Nat
  file : Nat
  ddir : Ddir
deriving DecidableEq

/-- Default `Skel` value for out-of-range indexing. -/
def skel0 : Skel := ⟨0, 0, 0, Ddir.read⟩

/-- Project a request to its merge-relevant fields. -/
def skel (io : IoU) : Skel := ⟨io.offset, io.buflen, io.file, io.ddir⟩

/-- `chainSeg b l e`: the listed requests tile the byte range `[b, e)`
contiguously, in order: the first starts at `b`, each next one starts where
the previous ended, and the last ends at `e`. -/
def chainSeg : Nat → List Skel → Nat → Prop
  | b, [], e => e = b
  | b, s :: rest, e => s.offset = b ∧ chainSeg (s.offset + s.buflen) rest e

/-- Structural invariant of reachable engine states: the queued count is
within the populated array, and a non-empty batch shares one file and one
direction (those tracked in `last_file`/`last_ddir`) and tiles a contiguous
byte range ending at `last_offset`. -/
def EngineInv (sd : SyncioData) : Prop :=
  sd.queued ≤ sd.io_us.length ∧
  (0 < sd.queued →
    ∃ f : Nat,
      sd.last_file = some f ∧
      (∀ s ∈ (batchOf sd).map skel, s.file = f ∧ s.ddir = sd.last_ddir) ∧
      chainSeg (nthD ((batchOf sd).map skel) 0 skel0).offset
        ((batchOf sd).map skel) sd.last_offset)

/-- Concrete contiguous read request at offset 0, length 100. -/
def reqA : IoU := ⟨Ddir.read, 1, 0, 500, 100, 0, 0⟩

/-- Concrete contiguous read request at offset 100, length 200. -/
def reqB : IoU := ⟨Ddir.read, 1, 100, 600, 200, 0, 0⟩

/-- Concrete contiguous read request at offset 300, length 50. -/
def reqC : IoU := ⟨Ddir.read, 1, 300, 700, 50, 0, 0⟩

/-- Concrete read request continuing the batch `[reqA, reqB, reqC]` at
offset 350. -/
def reqD : IoU := ⟨Ddir.read, 1, 350, 800, 50, 0, 0⟩

/-- A write request: not mergeable into a read batch. -/
def reqW : IoU := ⟨Ddir.write, 1, 350, 900, 10, 0, 0⟩

/-- State reached by submitting `reqA`, `reqB`, `reqC` (lengths 100, 200, 50)
to a fresh engine with depth 4: a three-request contiguous read batch. -/
def sd3 : SyncioData :=
  (fio_vsyncio_queue 4
    (fio_vsyncio_queue 4
      (fio_vsyncio_queue 4 fio_vsyncio_init reqA none 0).sd
      reqB none 0).sd
    reqC none 0).sd

/-- Commit environment in which `lseek` succeeds and the vectored transfer
moves all 350 queued bytes. -/
def envOK : CommitEnv := ⟨none, some 350, 0⟩

/-- State after committing `sd3` successfully and polling the completions:
an empty batch whose tracking fields still describe the flushed batch. -/
def sdStale : SyncioData :=
  (fio_vsyncio_getevents (fio_vsyncio_commit sd3 envOK).sd 1 1).1

/-! ### List helper lemmas -/

theorem nthD_mem : ∀ (l : List α) (i : Nat) (d : α), i < l.length →
    nthD l i d ∈ l
  | a :: t, 0, _, _ => List.mem_cons_self a t
  | a :: t, i + 1, d, h =>
      List.mem_cons_of_mem a (nthD_mem t i d (Nat.lt_of_succ_lt_succ h))

theorem nthD_append_left : ∀ (l1 l2 : List α) (i : Nat) (d : α),
    i < l1.length → nthD (l1 ++ l2) i d = nthD l1 i d
  | [], _, _, _, h => by simp at h
  | _ :: _, _, 0, _, _ => rfl
  | _ :: t, l2, i + 1, d, h =>
      nthD_append_left t l2 i d (Nat.lt_of_succ_lt_succ h)

theorem nthD_take : ∀ (l : List α) (q i : Nat) (d : α), i < q →
    nthD (l.take q) i d = nthD l i d
  | [], _, _, _, _ => by simp [nthD]
  | _ :: _, _ + 1, 0, _, _ => rfl
  | _ :: t, q + 1, i + 1, d, h => nthD_take t q i d (Nat.lt_of_succ_lt_succ h)
  | _ :: _, 0, _, _, h => by omega

theorem nthD_map_skel : ∀ (l : List IoU) (i : Nat), i < l.length →
    nthD (l.map skel) i skel0 = skel (nthD l i ioU0)
  | _ :: _, 0, _ => rfl
  | _ :: t, i + 1, h => nthD_map_skel t i (Nat.lt_of_succ_lt_succ h)

theorem set_take_succ : ∀ (l : List α) (i : Nat) (x : α), i < l.length →
    (l.set i x).take (i + 1) = l.take i ++ [x]
  | [], _, _, h => by simp at h
  | _ :: _, 0, _, _ => rfl
  | a :: t, i + 1, x, h => by
      have ih := set_take_succ t i x (Nat.lt_of_succ_lt_succ h)
      simp only [List.set, List.take, List.cons_append, ih]

theorem arraySet_take (l : List α) (i : Nat) (x : α) (h : i ≤ l.length) :
    (arraySet l i x).take (i + 1) = l.take i ++ [x] := by
  unfold arraySet
  split
  · exact set_take_succ l i x (by assumption)
  · have hi : i = l.length := by omega
    subst hi
    rw [List.take_of_length_le (by simp), List.take_of_length_le (Nat.le_refl _)]

theorem arraySet_length_ge (l : List α) (i : Nat) (x : α) (h : i ≤ l.length) :
    i + 1 ≤ (arraySet l i x).length := by
  unfold arraySet
  split
  · simpa using (by omega : i + 1 ≤ l.length)
  · simp
    omega

theorem take_take_le (l : List α) (i q : Nat) (h : i ≤ q) :
    (l.take q).take i = l.take i := by
  rw [List.take_take, Nat.min_eq_left h]

theorem sum_take_succ_buflen : ∀ (l : List IoU) (i : Nat), i < l.length →
    ((l.take (i + 1)).map (fun io => io.buflen)).sum =
      ((l.take i).map (fun io => io.buflen)).sum + (nthD l i ioU0).buflen
  | [], _, h => by simp at h
  | a :: t, 0, _ => by simp [nthD]
  | a :: t, i + 1, h => by
      have ih := sum_take_succ_buflen t i (Nat.lt_of_succ_lt_succ h)
      simp only [List.take, List.map_cons, List.sum_cons, nthD, ih]
      omega

/-! ### Lemmas about the resolution loops of `fio_vsyncio_end` -/

theorem markError_length (e : Nat) : ∀ l : List IoU,
    (markError e l).length = l.length
  | [] => rfl
  | _ :: t => by simp [markError, markError_length e t]

theorem markError_map_skel (e : Nat) : ∀ l : List IoU,
    (markError e l).map skel = l.map skel
  | [] => rfl
  | io :: t => by simp [markError, markError_map_skel e t, skel]

theorem markError_nthD (e : Nat) : ∀ (l : List IoU) (i : Nat), i < l.length →
    nthD (markError e l) i ioU0 = { nthD l i ioU0 with error := e }
  | _ :: _, 0, _ => rfl
  | _ :: t, i + 1, h => markError_nthD e t i (Nat.lt_of_succ_lt_succ h)

theorem shortResolve_length : ∀ (l : List IoU) (pool : Nat),
    (shortResolve pool l).length = l.length
  | [], _ => rfl
  | io :: t, pool => by
      simp [shortResolve, shortResolve_length t]

theorem shortResolve_map_skel : ∀ (l : List IoU) (pool : Nat),
    (shortResolve pool l).map skel = l.map skel
  | [], _ => rfl
  | io :: t, pool => by
      simp [shortResolve, shortResolve_map_skel t, skel]

theorem shortResolve_error : ∀ (l : List IoU) (pool : Nat) (io : IoU),
    io ∈ shortResolve pool l → io.error = 0
  | i0 :: t, pool, io, h => by
      rcases List.mem_cons.1 h with h | h
      · subst h; rfl
      · exact shortResolve_error t _ io h

theorem shortResolve_nthD : ∀ (l : List IoU) (pool i : Nat), i < l.length →
    nthD (shortResolve pool l) i ioU0 =
      { nthD l i ioU0 with
        resid := (nthD l i ioU0).buflen -
          min (specRemainingPool pool ((l.take i).map (fun io => io.buflen)))
            (nthD l i ioU0).buflen
        error := 0 }
  | a :: t, pool, 0, _ => rfl
  | a :: t, pool, i + 1, h => by
      have ih := shortResolve_nthD t (pool - min pool a.buflen) i
        (Nat.lt_of_succ_lt_succ h)
      simpa [shortResolve, nthD, specRemainingPool] using ih

theorem shortResolve_resid_sum : ∀ (l : List IoU) (pool : Nat),
    ((shortResolve pool l).map (fun io => io.resid)).sum =
      (l.map (fun io => io.buflen)).sum -
        min pool (l.map (fun io => io.buflen)).sum
  | [], pool => by simp [shortResolve]
  | io :: t, pool => by
      have ih := shortResolve_resid_sum t (pool - min pool io.buflen)
      simp only [shortResolve, List.map_cons, List.sum_cons, ih]
      omega

/-! ### Contiguity (`chainSeg`) lemmas -/

theorem chainSeg_snoc : ∀ (l : List Skel) (b e : Nat) (s : Skel),
    chainSeg b l e → s.offset = e →
    chainSeg b (l ++ [s]) (s.offset + s.buflen)
  | [], b, e, s, h, hs => by
      have hb : e = b := h
      exact ⟨by omega, rfl⟩
  | a :: t, b, e, s, h, hs =>
      ⟨h.1, chainSeg_snoc t _ e s h.2 hs⟩

theorem chainSeg_nthD : ∀ (l : List Skel) (b e : Nat), chainSeg b l e →
    ∀ i, i < l.length →
      (nthD l i skel0).offset =
        b + ((l.take i).map (fun s => s.buflen)).sum
  | a :: t, b, e, h, 0, _ => by simp [nthD, h.1]
  | a :: t, b, e, h, i + 1, hi => by
      have ih := chainSeg_nthD t (a.offset + a.buflen) e h.2 i
        (Nat.lt_of_succ_lt_succ hi)
      simp only [nthD, List.take, List.map_cons, List.sum_cons, ih, h.1]
      omega

/-! ### Frame lemmas: which state fields each operation leaves unchanged -/

theorem fio_vsyncio_end_frame (sd : SyncioData) (b : Option Nat) (e : Nat) :
    (fio_vsyncio_end sd b e).sd.queued = sd.queued ∧
    (fio_vsyncio_end sd b e).sd.queued_bytes = sd.queued_bytes ∧
    (fio_vsyncio_end sd b e).sd.last_offset = sd.last_offset ∧
    (fio_vsyncio_end sd b e).sd.last_file = sd.last_file ∧
    (fio_vsyncio_end sd b e).sd.last_ddir = sd.last_ddir ∧
    (fio_vsyncio_end sd b e).sd.iovecs = sd.iovecs := by
  cases b with
  | none => simp [fio_vsyncio_end]
  | some n =>
      by_cases h : n = sd.queued_bytes <;> simp [fio_vsyncio_end, h]

theorem fio_vsyncio_commit_frame (sd : SyncioData) (env : CommitEnv) :
    (fio_vsyncio_commit sd env).sd.queued = sd.queued ∧
    (fio_vsyncio_commit sd env).sd.queued_bytes = sd.queued_bytes ∧
    (fio_vsyncio_commit sd env).sd.last_offset = sd.last_offset ∧
    (fio_vsyncio_commit sd env).sd.last_file = sd.last_file ∧
    (fio_vsyncio_commit sd env).sd.last_ddir = sd.last_ddir ∧
    (fio_vsyncio_commit sd env).sd.iovecs = sd.iovecs := by
  unfold fio_vsyncio_commit
  by_cases h : sd.queued = 0
  · simp [h]
  · cases henv : env.lseekErr with
    | some e => simp [h, henv]
    | none =>
        simpa [h, henv] using fio_vsyncio_end_frame sd env.xfer env.errno_

/-! ### The reachable-state invariant -/

theorem append_eq_true_iff (sd : SyncioData) (io_u : IoU) :
    fio_vsyncio_append sd io_u = true ↔
      io_u.ddir ≠ Ddir.sync ∧ (io_u.offset = sd.last_offset ∧
        sd.last_file = some io_u.file ∧ io_u.ddir = sd.last_ddir) := by
  unfold fio_vsyncio_append
  by_cases h1 : io_u.ddir = Ddir.sync
  · simp [h1]
  · by_cases h2 : io_u.offset = sd.last_offset ∧
        sd.last_file = some io_u.file ∧ io_u.ddir = sd.last_ddir
    · simp [h1, h2]
    · simp [h1, h2]

theorem engineInv_init : EngineInv fio_vsyncio_init := by
  constructor
  · simp [fio_vsyncio_init]
  · intro h
    simp [fio_vsyncio_init] at h

theorem engineInv_set_iov (sd : SyncioData) (io_u : IoU)
    (hinv : EngineInv sd)
    (hmerge : 0 < sd.queued → fio_vsyncio_append sd io_u = true) :
    EngineInv (fio_vsyncio_set_iov sd io_u sd.queued) := by
  obtain ⟨hlen, hbatch⟩ := hinv
  have htake : (arraySet sd.io_us sd.queued io_u).take (sd.queued + 1) =
      sd.io_us.take sd.queued ++ [io_u] := arraySet_take _ _ _ hlen
  have hb : batchOf (fio_vsyncio_set_iov sd io_u sd.queued) =
      sd.io_us.take sd.queued ++ [io_u] := by
    simpa [batchOf, fio_vsyncio_set_iov] using htake
  constructor
  · exact arraySet_length_ge _ _ _ hlen
  · intro _
    by_cases hq : 0 < sd.queued
    · obtain ⟨f, hf, hall, hchain⟩ := hbatch hq
      obtain ⟨hnsync, hoff, hfile, hddir⟩ :=
        (append_eq_true_iff sd io_u).1 (hmerge hq)
      have hfeq : io_u.file = f := by
        rw [hf] at hfile
        exact (Option.some.inj hfile).symm
      have hlenS : ((sd.io_us.take sd.queued).map skel).length = sd.queued := by
        simp [List.length_map, List.length_take]
        omega
      refine ⟨f, ?_, ?_, ?_⟩
      · simp [fio_vsyncio_set_iov, hfeq]
      · intro s hs
        rw [hb] at hs
        simp only [List.map_append, List.map_cons, List.map_nil,
          List.mem_append, List.mem_singleton] at hs
        rcases hs with hs | hs
        · obtain ⟨h1, h2⟩ := hall s hs
          refine ⟨h1, ?_⟩
          simp [fio_vsyncio_set_iov, h2, hddir]
        · subst hs
          exact ⟨hfeq, by simp [fio_vsyncio_set_iov, skel]⟩
      · rw [hb]
        simp only [List.map_append, List.map_cons, List.map_nil]
        have hhead : nthD (((sd.io_us.take sd.queued).map skel) ++ [skel io_u])
            0 skel0 = nthD ((sd.io_us.take sd.queued).map skel) 0 skel0 :=
          nthD_append_left _ _ _ _ (by omega)
        rw [hhead]
        have hsnoc := chainSeg_snoc _ _ _ (skel io_u) hchain
          (show (skel io_u).offset = sd.last_offset from hoff)
        exact hsnoc
    · have hq0 : sd.queued = 0 := by omega
      refine ⟨io_u.file, by simp [fio_vsyncio_set_iov], ?_, ?_⟩
      · intro s hs
        rw [hb, hq0] at hs
        simp only [List.take_zero, List.nil_append, List.map_cons,
          List.map_nil, List.mem_singleton] at hs
        subst hs
        exact ⟨rfl, by simp [fio_vsyncio_set_iov, skel]⟩
      · rw [hb, hq0]
        simp only [List.take_zero, List.nil_append, List.map_cons, List.map_nil]
        exact ⟨rfl, by simp [fio_vsyncio_set_iov, skel, chainSeg]⟩

theorem engineInv_queue (d : Nat) (sd : SyncioData) (io_u : IoU)
    (fs : Option Nat) (e : Nat) (hinv : EngineInv sd) :
    EngineInv (fio_vsyncio_queue d sd io_u fs e).sd := by
  unfold fio_vsyncio_queue
  by_cases hap : fio_vsyncio_append sd io_u = false
  · rw [if_pos hap]
    by_cases hq : sd.queued ≠ 0
    · rw [if_pos hq]
      exact hinv
    · rw [if_neg hq]
      by_cases hs : io_u.ddir = Ddir.sync
      · rw [if_pos hs]
        exact hinv
      · rw [if_neg hs]
        have hfresh : EngineInv { sd with queued := 0, queued_bytes := 0 } :=
          ⟨Nat.zero_le _, by intro h; simp at h⟩
        exact engineInv_set_iov { sd with queued := 0, queued_bytes := 0 }
          io_u hfresh (by intro h; simp at h)
  · rw [if_neg hap]
    have hap2 : fio_vsyncio_append sd io_u = true := by
      revert hap
      cases fio_vsyncio_append sd io_u <;> simp
    by_cases hqd : sd.queued = d
    · rw [if_pos hqd]
      exact hinv
    · rw [if_neg hqd]
      exact engineInv_set_iov sd io_u hinv (fun _ => hap2)

theorem engineInv_end (sd : SyncioData) (b : Option Nat) (e : Nat)
    (hinv : EngineInv sd) :
    EngineInv (fio_vsyncio_end sd b e).sd := by
  obtain ⟨hlen, hbatch⟩ := hinv
  have key : ∀ rep : List IoU, rep.map skel = (batchOf sd).map skel →
      rep.length = (batchOf sd).length →
      EngineInv { sd with io_us := rep ++ sd.io_us.drop sd.queued } := by
    intro rep hmap hreplen
    have hbl : (batchOf sd).length = sd.queued := by
      simp [batchOf, List.length_take]
      omega
    have hb2 : batchOf { sd with io_us := rep ++ sd.io_us.drop sd.queued } =
        rep := by
      simp only [batchOf]
      rw [show sd.queued = rep.length by omega]
      exact List.take_left rep _
    constructor
    · show sd.queued ≤ (rep ++ sd.io_us.drop sd.queued).length
      rw [List.length_append, List.length_drop]
      omega
    · intro hq
      obtain ⟨f, hf, hall, hchain⟩ := hbatch hq
      refine ⟨f, hf, ?_, ?_⟩
      · intro s hs
        rw [hb2, hmap] at hs
        exact hall s hs
      · rw [hb2, hmap]
        exact hchain
  cases b with
  | none =>
      exact key (markError e (sd.io_us.take sd.queued))
        (markError_map_skel e _) (by rw [markError_length]; rfl)
  | some n =>
      by_cases h : n = sd.queued_bytes
      · simpa [fio_vsyncio_end, h] using ⟨hlen, hbatch⟩
      · have := key (shortResolve n (sd.io_us.take sd.queued))
          (shortResolve_map_skel _ n) (by rw [shortResolve_length]; rfl)
        simpa [fio_vsyncio_end, h] using this

theorem engineInv_commit (sd : SyncioData) (env : CommitEnv)
    (hinv : EngineInv sd) :
    EngineInv (fio_vsyncio_commit sd env).sd := by
  unfold fio_vsyncio_commit
  by_cases h : sd.queued = 0
  · rw [if_pos h]
    exact hinv
  · rw [if_neg h]
    cases henv : env.lseekErr with
    | some e => exact hinv
    | none => exact engineInv_end sd env.xfer env.errno_ hinv

theorem engineInv_getevents (sd : SyncioData) (mn mx : Nat)
    (hinv : EngineInv sd) :
    EngineInv (fio_vsyncio_getevents sd mn mx).1 := by
  unfold fio_vsyncio_getevents
  by_cases h : mn ≠ 0
  · rw [if_pos h]
    exact ⟨Nat.zero_le _, by intro hq; simp at hq⟩
  · rw [if_neg h]
    exact hinv

theorem reach_engineInv {d : Nat} {sd : SyncioData} (h : Reach d sd) :
    EngineInv sd := by
  induction h with
  | init => exact engineInv_init
  | queue sd io_u fs e _ ih => exact engineInv_queue d sd io_u fs e ih
  | commit sd env _ ih => exact engineInv_commit sd env ih
  | getevents sd mn mx _ ih => exact engineInv_getevents sd mn mx ih

theorem reach_queued_le_depth {d : Nat} (hd : 1 ≤ d) :
    ∀ {sd : SyncioData}, Reach d sd → sd.queued ≤ d := by
  intro sd h
  induction h with
  | init => simpa [fio_vsyncio_init] using hd
  | queue sd io_u fs e _ ih =>
      unfold fio_vsyncio_queue
      by_cases hap : fio_vsyncio_append sd io_u = false
      · rw [if_pos hap]
        by_cases hq : sd.queued ≠ 0
        · rw [if_pos hq]
          exact ih
        · rw [if_neg hq]
          by_cases hs : io_u.ddir = Ddir.sync
          · rw [if_pos hs]
            exact ih
          · rw [if_neg hs]
            simpa [fio_vsyncio_set_iov] using hd
      · rw [if_neg hap]
        by_cases hqd : sd.queued = d
        · rw [if_pos hqd]
          exact ih
        · rw [if_neg hqd]
          simp [fio_vsyncio_set_iov]
          omega
  | commit sd env _ ih =>
      have := (fio_vsyncio_commit_frame sd env).1
      omega
  | getevents sd mn mx _ ih =>
      unfold fio_vsyncio_getevents
      by_cases h : mn ≠ 0
      · rw [if_pos h]
        exact Nat.zero_le _
      · rw [if_neg h]
        exact ih

/-! ### Claim theorems -/

/-- C1: short-transfer resolution distributes the returned byte count across
the queued requests in arrival order: for every non-empty batch and every
non-negative returned byte count different from the batch's total queued
bytes, request `i` receives `min (remaining pool) (its length)` bytes, its
residual is set to its length minus the bytes it received, its error is set
to zero, and once the pool is exhausted every later request's residual equals
its full length. -/
theorem short_transfer_distribution (sd : SyncioData) (bytes errno_ : Nat)
    (hlen : sd.queued ≤ sd.io_us.length) (hq : 0 < sd.queued)
    (hne : bytes ≠ sd.queued_bytes) :
    ∀ i, i < sd.queued →
      (nthD (fio_vsyncio_end sd (some bytes) errno_).sd.io_us i ioU0).resid =
          (nthD sd.io_us i ioU0).buflen -
            min (specRemainingPool bytes
                (((batchOf sd).take i).map (fun io => io.buflen)))
              (nthD sd.io_us i ioU0).buflen ∧
      (nthD (fio_vsyncio_end sd (some bytes) errno_).sd.io_us i ioU0).error =
        0 ∧
      (specRemainingPool bytes
            (((batchOf sd).take i).map (fun io => io.buflen)) = 0 →
        (nthD (fio_vsyncio_end sd (some bytes) errno_).sd.io_us i ioU0).resid =
          (nthD sd.io_us i ioU0).buflen) := by
  intro i hi
  have hio : (fio_vsyncio_end sd (some bytes) errno_).sd.io_us =
      shortResolve bytes (sd.io_us.take sd.queued) ++
        sd.io_us.drop sd.queued := by
    simp [fio_vsyncio_end, hne]
  have hlt : i < (sd.io_us.take sd.queued).length := by
    simp [List.length_take]
    omega
  have hleft : nthD (shortResolve bytes (sd.io_us.take sd.queued) ++
      sd.io_us.drop sd.queued) i ioU0 =
      nthD (shortResolve bytes (sd.io_us.take sd.queued)) i ioU0 :=
    nthD_append_left _ _ _ _ (by rw [shortResolve_length]; exact hlt)
  have hsr := shortResolve_nthD (sd.io_us.take sd.queued) bytes i hlt
  have htk : nthD (sd.io_us.take sd.queued) i ioU0 = nthD sd.io_us i ioU0 :=
    nthD_take _ _ _ _ hi
  rw [hio, hleft, hsr, htk]
  refine ⟨rfl, rfl, ?_⟩
  intro h0
  have h0b : specRemainingPool bytes
      (((sd.io_us.take sd.queued).take i).map (fun io => io.buflen)) = 0 := h0
  rw [h0b]
  simp

/-- Witness for C1 at the specification's concrete instance: a batch with
byte lengths [100, 200, 50] resolved with a 250-byte transfer; the middle
request satisfies the distribution formula, and the residuals are exactly
[0, 50, 50] in arrival order. -/
theorem short_transfer_distribution_witness :
    ((nthD (fio_vsyncio_end sd3 (some 250) 0).sd.io_us 1 ioU0).resid =
        (nthD sd3.io_us 1 ioU0).buflen -
          min (specRemainingPool 250
              (((batchOf sd3).take 1).map (fun io => io.buflen)))
            (nthD sd3.io_us 1 ioU0).buflen ∧
      (nthD (fio_vsyncio_end sd3 (some 250) 0).sd.io_us 1 ioU0).error = 0 ∧
      (specRemainingPool 250
            (((batchOf sd3).take 1).map (fun io => io.buflen)) = 0 →
        (nthD (fio_vsyncio_end sd3 (some 250) 0).sd.io_us 1 ioU0).resid =
          (nthD sd3.io_us 1 ioU0).buflen)) ∧
    (fio_vsyncio_end sd3 (some 250) 0).sd.io_us.map (fun io => io.resid) =
      [0, 50, 50] :=
  ⟨short_transfer_distribution sd3 250 0 (by decide) (by decide) (by decide)
      1 (by decide),
    by decide⟩

/-- C10: byte conservation of short-transfer resolution: for every non-empty
batch whose tracked total equals the sum of its queued lengths and every
returned byte count strictly below that total, after resolution the residual
fields of the queued requests sum to the total minus the returned count, and
every queued request's error field is zero (and the resolution reports
success). -/
theorem short_transfer_conservation (sd : SyncioData) (bytes errno_ : Nat)
    (hlen : sd.queued ≤ sd.io_us.length) (hq : 0 < sd.queued)
    (hcons : sd.queued_bytes = ((batchOf sd).map (fun io => io.buflen)).sum)
    (hb : bytes < sd.queued_bytes) :
    ((batchOf (fio_vsyncio_end sd (some bytes) errno_).sd).map
        (fun io => io.resid)).sum = sd.queued_bytes - bytes ∧
    (∀ io ∈ batchOf (fio_vsyncio_end sd (some bytes) errno_).sd,
      io.error = 0) ∧
    (fio_vsyncio_end sd (some bytes) errno_).ret = 0 := by
  have hne : bytes ≠ sd.queued_bytes := by omega
  have hio : (fio_vsyncio_end sd (some bytes) errno_).sd.io_us =
      shortResolve bytes (batchOf sd) ++ sd.io_us.drop sd.queued := by
    simp [fio_vsyncio_end, hne]
    rfl
  have hq2 : (fio_vsyncio_end sd (some bytes) errno_).sd.queued = sd.queued :=
    (fio_vsyncio_end_frame sd (some bytes) errno_).1
  have hsl : (shortResolve bytes (batchOf sd)).length = sd.queued := by
    rw [shortResolve_length]
    simp [batchOf, List.length_take]
    omega
  have hbatch : batchOf (fio_vsyncio_end sd (some bytes) errno_).sd =
      shortResolve bytes (batchOf sd) := by
    have hstep : batchOf (fio_vsyncio_end sd (some bytes) errno_).sd =
        (shortResolve bytes (batchOf sd) ++
          sd.io_us.drop sd.queued).take sd.queued := by
      unfold batchOf
      rw [hio, hq2]
      rfl
    rw [hstep, show sd.queued = (shortResolve bytes (batchOf sd)).length
      from hsl.symm]
    exact List.take_left _ _
  rw [hbatch]
  refine ⟨?_, ?_, ?_⟩
  · rw [shortResolve_resid_sum, ← hcons, Nat.min_eq_left (by omega)]
  · intro io hio2
    exact shortResolve_error _ _ _ hio2
  · simp [fio_vsyncio_end, hne]

/-- Witness for C10: the [100, 200, 50] batch resolved with 250 bytes has
residuals summing to 350 - 250 = 100 and all error fields zero. -/
theorem short_transfer_conservation_witness :
    ((batchOf (fio_vsyncio_end sd3 (some 250) 0).sd).map
        (fun io => io.resid)).sum = sd3.queued_bytes - 250 ∧
    (∀ io ∈ batchOf (fio_vsyncio_end sd3 (some 250) 0).sd, io.error = 0) ∧
    (fio_vsyncio_end sd3 (some 250) 0).ret = 0 :=
  short_transfer_conservation sd3 250 0 (by decide) (by decide) (by decide)
    (by decide)

/-- C3: if the vectored transfer syscall fails (returns -1, no bytes
transferred) with a positive captured error code, commit marks every queued
request's error field with that code, reports the code (labelled
"xfer vsync") to the error-reporting collaborator, and returns a negative
outcome, while leaving every queued request's residual unchanged. -/
theorem commit_transfer_failure (sd : SyncioData) (e : Nat)
    (he : 0 < e) (hq : sd.queued ≠ 0) (hlen : sd.queued ≤ sd.io_us.length) :
    (fio_vsyncio_commit sd ⟨none, none, e⟩).ret = -(e : Int) ∧
    (fio_vsyncio_commit sd ⟨none, none, e⟩).ret < 0 ∧
    (fio_vsyncio_commit sd ⟨none, none, e⟩).verrors = [(e, Verr.xferVsync)] ∧
    (∀ i, i < sd.queued →
      (nthD (fio_vsyncio_commit sd ⟨none, none, e⟩).sd.io_us i ioU0).error =
        e ∧
      (nthD (fio_vsyncio_commit sd ⟨none, none, e⟩).sd.io_us i ioU0).resid =
        (nthD sd.io_us i ioU0).resid) := by
  have hcommit : fio_vsyncio_commit sd ⟨none, none, e⟩ =
      ⟨{ sd with io_us := markError e (sd.io_us.take sd.queued) ++
          sd.io_us.drop sd.queued }, -(e : Int), [(e, Verr.xferVsync)],
        true⟩ := by
    simp [fio_vsyncio_commit, fio_vsyncio_end, hq]
  rw [hcommit]
  have hneg : -(e : Int) < 0 := by
    have : (0 : Int) < e := by exact_mod_cast he
    omega
  refine ⟨rfl, hneg, rfl, ?_⟩
  intro i hi
  have hlt : i < (sd.io_us.take sd.queued).length := by
    simp [List.length_take]
    omega
  have hleft : nthD (markError e (sd.io_us.take sd.queued) ++
      sd.io_us.drop sd.queued) i ioU0 =
      nthD (markError e (sd.io_us.take sd.queued)) i ioU0 :=
    nthD_append_left _ _ _ _ (by rw [markError_length]; exact hlt)
  have hme := markError_nthD e (sd.io_us.take sd.queued) i hlt
  have htk : nthD (sd.io_us.take sd.queued) i ioU0 = nthD sd.io_us i ioU0 :=
    nthD_take _ _ _ _ hi
  constructor
  · show (nthD (markError e (sd.io_us.take sd.queued) ++
      sd.io_us.drop sd.queued) i ioU0).error = e
    rw [hleft, hme]
  · show (nthD (markError e (sd.io_us.take sd.queued) ++
      sd.io_us.drop sd.queued) i ioU0).resid = (nthD sd.io_us i ioU0).resid
    rw [hleft, hme, htk]

/-- Witness for C3: committing the three-request batch with a failed transfer
and captured error code 5. -/
theorem commit_transfer_failure_witness :
    (fio_vsyncio_commit sd3 ⟨none, none, 5⟩).ret = -(5 : Int) ∧
    (fio_vsyncio_commit sd3 ⟨none, none, 5⟩).ret < 0 ∧
    (fio_vsyncio_commit sd3 ⟨none, none, 5⟩).verrors =
      [(5, Verr.xferVsync)] ∧
    (∀ i, i < sd3.queued →
      (nthD (fio_vsyncio_commit sd3 ⟨none, none, 5⟩).sd.io_us i ioU0).error =
        5 ∧
      (nthD (fio_vsyncio_commit sd3 ⟨none, none, 5⟩).sd.io_us i ioU0).resid =
        (nthD sd3.io_us i ioU0).resid) :=
  commit_transfer_failure sd3 5 (by decide) (by decide) (by decide)

/-- C9: if positioning the file descriptor at the batch's first offset fails
with a positive error code, commit performs no vectored transfer, reports the
failure to the error-reporting collaborator, and returns a negative error
outcome, while the whole batch state (queued requests with their
residual/error fields, iovecs, counts and tracking fields) is unchanged. -/
theorem commit_lseek_failure (sd : SyncioData) (e : Nat) (xr : Option Nat)
    (er : Nat) (he : 0 < e) (hq : sd.queued ≠ 0) :
    fio_vsyncio_commit sd ⟨some e, xr, er⟩ =
      ⟨sd, -(e : Int), [(e, Verr.lseek)], false⟩ ∧
    -(e : Int) < 0 := by
  constructor
  · simp [fio_vsyncio_commit, hq]
  · have : (0 : Int) < e := by exact_mod_cast he
    omega

/-- Witness for C9: a failed seek (error code 9) on the three-request batch
leaves the state untouched and performs no transfer. -/
theorem commit_lseek_failure_witness :
    fio_vsyncio_commit sd3 ⟨some 9, some 350, 0⟩ =
      ⟨sd3, -(9 : Int), [(9, Verr.lseek)], false⟩ ∧
    -(9 : Int) < 0 :=
  commit_lseek_failure sd3 9 (some 350) 0 (by decide) (by decide)

/-- C7: for every non-empty batch, submitting a request that does not pass
the mergeability test returns busy and leaves the whole batch state
unchanged: queued requests, iovec descriptors, cumulative byte count and the
last-offset/file/direction fields are identical before and after. -/
theorem queue_busy_frame (d : Nat) (sd : SyncioData) (io_u : IoU)
    (fs : Option Nat) (e : Nat)
    (hm : fio_vsyncio_append sd io_u = false) (hq : sd.queued ≠ 0) :
    (fio_vsyncio_queue d sd io_u fs e).ret = FIO_Q_BUSY ∧
    (fio_vsyncio_queue d sd io_u fs e).sd.io_us = sd.io_us ∧
    (fio_vsyncio_queue d sd io_u fs e).sd.iovecs = sd.iovecs ∧
    (fio_vsyncio_queue d sd io_u fs e).sd.queued = sd.queued ∧
    (fio_vsyncio_queue d sd io_u fs e).sd.queued_bytes = sd.queued_bytes ∧
    (fio_vsyncio_queue d sd io_u fs e).sd.last_offset = sd.last_offset ∧
    (fio_vsyncio_queue d sd io_u fs e).sd.last_file = sd.last_file ∧
    (fio_vsyncio_queue d sd io_u fs e).sd.last_ddir = sd.last_ddir ∧
    (fio_vsyncio_queue d sd io_u fs e).sd = sd := by
  have hbusy : fio_vsyncio_queue d sd io_u fs e =
      ⟨sd, io_u, FIO_Q_BUSY, []⟩ := by
    simp [fio_vsyncio_queue, hm, hq]
  rw [hbusy]
  exact ⟨rfl, rfl, rfl, rfl, rfl, rfl, rfl, rfl, rfl⟩

/-- Witness for C7: a write request cannot merge into the pending read batch;
submitting it returns busy and changes nothing. -/
theorem queue_busy_frame_witness :
    (fio_vsyncio_queue 4 sd3 reqW none 0).ret = FIO_Q_BUSY ∧
    (fio_vsyncio_queue 4 sd3 reqW none 0).sd.io_us = sd3.io_us ∧
    (fio_vsyncio_queue 4 sd3 reqW none 0).sd.iovecs = sd3.iovecs ∧
    (fio_vsyncio_queue 4 sd3 reqW none 0).sd.queued = sd3.queued ∧
    (fio_vsyncio_queue 4 sd3 reqW none 0).sd.queued_bytes =
      sd3.queued_bytes ∧
    (fio_vsyncio_queue 4 sd3 reqW none 0).sd.last_offset = sd3.last_offset ∧
    (fio_vsyncio_queue 4 sd3 reqW none 0).sd.last_file = sd3.last_file ∧
    (fio_vsyncio_queue 4 sd3 reqW none 0).sd.last_ddir = sd3.last_ddir ∧
    (fio_vsyncio_queue 4 sd3 reqW none 0).sd = sd3 :=
  queue_busy_frame 4 sd3 reqW none 0 (by decide) (by decide)

/-- C5: the queued count never exceeds the configured depth on any reachable
state (for a positive configured depth), and submitting a mergeable request
when the queued count already equals the depth returns busy and appends
nothing. -/
theorem depth_bound (d : Nat) (hd : 1 ≤ d) :
    (∀ sd : SyncioData, Reach d sd → sd.queued ≤ d) ∧
    (∀ (sd : SyncioData) (io_u : IoU) (fs : Option Nat) (e : Nat),
      fio_vsyncio_append sd io_u = true → sd.queued = d →
      fio_vsyncio_queue d sd io_u fs e = ⟨sd, io_u, FIO_Q_BUSY, []⟩) := by
  constructor
  · intro sd h
    exact reach_queued_le_depth hd h
  · intro sd io_u fs e hap hqd
    simp [fio_vsyncio_queue, hap, hqd]

/-- Witness for C5: with configured depth 3, the full three-request batch
reports busy for a mergeable request, appending nothing. -/
theorem depth_bound_witness :
    fio_vsyncio_queue 3 sd3 reqD none 0 = ⟨sd3, reqD, FIO_Q_BUSY, []⟩ ∧
    fio_vsyncio_init.queued ≤ 3 :=
  ⟨(depth_bound 3 (by decide)).2 sd3 reqD none 0 (by decide) (by decide),
    (depth_bound 3 (by decide)).1 fio_vsyncio_init Reach.init⟩

/-- C6: in every reachable state with a non-empty batch, all queued requests
share one file identity and one direction, each request's offset equals the
previous request's offset plus that request's length, and request `i` starts
at the first request's offset plus the sum of the lengths before it (so the
batch covers one contiguous gapless range). -/
theorem batch_contiguous (d : Nat) (sd : SyncioData)
    (hr : Reach d sd) (hq : 0 < sd.queued) :
    (∀ io ∈ batchOf sd,
      io.file = (nthD (batchOf sd) 0 ioU0).file ∧
      io.ddir = (nthD (batchOf sd) 0 ioU0).ddir) ∧
    (∀ i, i + 1 < (batchOf sd).length →
      (nthD (batchOf sd) (i + 1) ioU0).offset =
        (nthD (batchOf sd) i ioU0).offset +
          (nthD (batchOf sd) i ioU0).buflen) ∧
    (∀ i, i < (batchOf sd).length →
      (nthD (batchOf sd) i ioU0).offset =
        (nthD (batchOf sd) 0 ioU0).offset +
          (((batchOf sd).take i).map (fun io => io.buflen)).sum) := by
  obtain ⟨hlen, hbatch⟩ := reach_engineInv hr
  obtain ⟨f, hf, hall, hchain⟩ := hbatch hq
  have hL : 0 < (batchOf sd).length := by
    simp [batchOf, List.length_take]
    omega
  have hhead := nthD_mem (batchOf sd) 0 ioU0 hL
  have hheadskel := hall (skel (nthD (batchOf sd) 0 ioU0))
    (List.mem_map_of_mem skel hhead)
  have hc3 : ∀ i, i < (batchOf sd).length →
      (nthD (batchOf sd) i ioU0).offset =
        (nthD (batchOf sd) 0 ioU0).offset +
          (((batchOf sd).take i).map (fun io => io.buflen)).sum := by
    intro i hi
    have hmaplen : i < ((batchOf sd).map skel).length := by
      rw [List.length_map]
      exact hi
    have hc := chainSeg_nthD _ _ _ hchain i hmaplen
    rw [nthD_map_skel _ _ hi, nthD_map_skel _ _ hL] at hc
    have hsum : (((batchOf sd).map skel).take i).map (fun s => s.buflen) =
        ((batchOf sd).take i).map (fun io => io.buflen) := by
      rw [← List.map_take, List.map_map]
      rfl
    rw [hsum] at hc
    exact hc
  refine ⟨?_, ?_, hc3⟩
  · intro io hio
    have h1 := hall (skel io) (List.mem_map_of_mem skel hio)
    exact ⟨h1.1.trans hheadskel.1.symm, h1.2.trans hheadskel.2.symm⟩
  · intro i hi
    have h1 := hc3 i (by omega)
    have h2 := hc3 (i + 1) hi
    have h3 := sum_take_succ_buflen (batchOf sd) i (by omega)
    omega

/-- Witness for C6: the reachable three-request batch `[reqA, reqB, reqC]`
shares file 1 and direction read and is contiguous. -/
theorem batch_contiguous_witness :
    (∀ io ∈ batchOf sd3,
      io.file = (nthD (batchOf sd3) 0 ioU0).file ∧
      io.ddir = (nthD (batchOf sd3) 0 ioU0).ddir) ∧
    (∀ i, i + 1 < (batchOf sd3).length →
      (nthD (batchOf sd3) (i + 1) ioU0).offset =
        (nthD (batchOf sd3) i ioU0).offset +
          (nthD (batchOf sd3) i ioU0).buflen) ∧
    (∀ i, i < (batchOf sd3).length →
      (nthD (batchOf sd3) i ioU0).offset =
        (nthD (batchOf sd3) 0 ioU0).offset +
          (((batchOf sd3).take i).map (fun io => io.buflen)).sum) :=
  batch_contiguous 4 sd3
    (Reach.queue _ reqC none 0 (Reach.queue _ reqB none 0
      (Reach.queue _ reqA none 0 Reach.init)))
    (by decide)

/-- C4 counterexample: after committing a batch and polling its completions,
the batch is empty (queued count 0) in a reachable state, yet a request
matching the stale tracked end-offset/file/direction still passes the
mergeability test — so "the first request submitted to an empty batch is not
mergeable" fails on the code. -/
theorem append_empty_batch_cex :
    Reach 4 sdStale ∧ sdStale.queued = 0 ∧
      fio_vsyncio_append sdStale reqD = true := by
  refine ⟨?_, by decide, by decide⟩
  exact Reach.getevents _ 1 1 (Reach.commit _ envOK
    (Reach.queue _ reqC none 0 (Reach.queue _ reqB none 0
      (Reach.queue _ reqA none 0 Reach.init))))

/-- C4 amended: for every non-sync request the mergeability test passes iff
the request's offset, file and direction equal the tracked
last-offset/file/direction; a sync-barrier request never merges; and the
first request submitted to a freshly initialised engine is never mergeable
(the tracked file starts as null).  After a commit and poll the tracked
values persist, so an empty batch need not reject a matching request. -/
theorem append_iff_amended :
    (∀ (sd : SyncioData) (io_u : IoU), io_u.ddir ≠ Ddir.sync →
      (fio_vsyncio_append sd io_u = true ↔
        io_u.offset = sd.last_offset ∧ sd.last_file = some io_u.file ∧
          io_u.ddir = sd.last_ddir)) ∧
    (∀ (sd : SyncioData) (io_u : IoU), io_u.ddir = Ddir.sync →
      fio_vsyncio_append sd io_u = false) ∧
    (∀ io_u : IoU, fio_vsyncio_append fio_vsyncio_init io_u = false) := by
  refine ⟨?_, ?_, ?_⟩
  · intro sd io_u hns
    rw [append_eq_true_iff]
    simp [hns]
  · intro sd io_u hs
    simp [fio_vsyncio_append, hs]
  · intro io_u
    by_cases hs : io_u.ddir = Ddir.sync
    · simp [fio_vsyncio_append, hs]
    · simp [fio_vsyncio_append, hs, fio_vsyncio_init]

/-- Witness for C4's amended statement: the mergeability test on the pending
three-request batch and its continuation request reduces to the tracked-field
comparison, and a sync barrier never merges. -/
theorem append_iff_amended_witness :
    (fio_vsyncio_append sd3 reqD = true ↔
      reqD.offset = sd3.last_offset ∧ sd3.last_file = some reqD.file ∧
        reqD.ddir = sd3.last_ddir) ∧
    fio_vsyncio_append sd3 ⟨Ddir.sync, 1, 350, 0, 0, 0, 0⟩ = false :=
  ⟨(append_iff_amended.1 sd3 reqD (by decide)),
    (append_iff_amended.2.1 sd3 ⟨Ddir.sync, 1, 350, 0, 0, 0, 0⟩ rfl)⟩

/-- C2 counterexample: committing the non-empty batch `[reqA, reqB, reqC]`
with a fully successful transfer leaves the queued count at 3 and the
cumulative bytes at 350 (nothing is cleared by commit), and the tracking
fields still make the next contiguous request mergeable — the claimed
clearing and sentinel reset do not happen. -/
theorem commit_clears_cex :
    (fio_vsyncio_commit sd3 envOK).sd.queued = 3 ∧
    (fio_vsyncio_commit sd3 envOK).sd.queued_bytes = 350 ∧
    fio_vsyncio_append (fio_vsyncio_commit sd3 envOK).sd reqD = true := by
  decide

/-- C2 amended: commit itself clears nothing: it leaves the queued count,
cumulative bytes and last-offset/file/direction exactly as they were.  The
queued count is reset to zero only by the next poll with `min ≥ 1`; the
cumulative bytes are reset only when a non-mergeable non-sync submission
starts a fresh batch (which then holds that request alone); the tracking
sentinel is never reset after initialisation. -/
theorem commit_defers_clearing :
    (∀ (sd : SyncioData) (env : CommitEnv),
      (fio_vsyncio_commit sd env).sd.queued = sd.queued ∧
      (fio_vsyncio_commit sd env).sd.queued_bytes = sd.queued_bytes ∧
      (fio_vsyncio_commit sd env).sd.last_offset = sd.last_offset ∧
      (fio_vsyncio_commit sd env).sd.last_file = sd.last_file ∧
      (fio_vsyncio_commit sd env).sd.last_ddir = sd.last_ddir) ∧
    (∀ (sd : SyncioData) (mn mx : Nat), 0 < mn →
      (fio_vsyncio_getevents sd mn mx).1.queued = 0 ∧
      (fio_vsyncio_getevents sd mn mx).1.queued_bytes = sd.queued_bytes ∧
      (fio_vsyncio_getevents sd mn mx).1.last_offset = sd.last_offset) ∧
    (∀ (d : Nat) (sd : SyncioData) (io_u : IoU) (fs : Option Nat) (e : Nat),
      fio_vsyncio_append sd io_u = false → sd.queued = 0 →
      io_u.ddir ≠ Ddir.sync →
      (fio_vsyncio_queue d sd io_u fs e).sd.queued_bytes = io_u.buflen ∧
      (fio_vsyncio_queue d sd io_u fs e).sd.queued = 1) := by
  refine ⟨?_, ?_, ?_⟩
  · intro sd env
    obtain ⟨h1, h2, h3, h4, h5, _⟩ := fio_vsyncio_commit_frame sd env
    exact ⟨h1, h2, h3, h4, h5⟩
  · intro sd mn mx hmn
    have h : mn ≠ 0 := by omega
    simp [fio_vsyncio_getevents, h]
  · intro d sd io_u fs e hap hq0 hsync
    simp [fio_vsyncio_queue, hap, hq0, hsync, fio_vsyncio_set_iov]

/-- Witness for C2's amended statement, at the three-request batch: commit
preserves the count, and a poll then zeroes it. -/
theorem commit_defers_clearing_witness :
    (fio_vsyncio_commit sd3 envOK).sd.queued = sd3.queued ∧
    (fio_vsyncio_getevents sd3 1 1).1.queued = 0 ∧
    (fio_vsyncio_queue 4 fio_vsyncio_init reqA none 0).sd.queued_bytes =
      reqA.buflen :=
  ⟨(commit_defers_clearing.1 sd3 envOK).1,
    (commit_defers_clearing.2.1 sd3 1 1 (by decide)).1,
    (commit_defers_clearing.2.2 4 fio_vsyncio_init reqA none 0 (by decide)
      (by decide) (by decide)).1⟩

/-- C8: a poll with `min ≥ 1` returns the queued count recorded at the most
recent commit (commit leaves that count unchanged, and it is the number of
requests the commit resolved) and resets it to zero, so a second consecutive
poll with `min ≥ 1` returns zero; a poll with `min = 0` returns zero
immediately and leaves the state untouched.  Every poll is a total function
of the state — there is no blocking. -/
theorem poll_behaviour (sd : SyncioData) (env : CommitEnv)
    (mn mx mn2 mx2 mx3 : Nat) (h1 : 0 < mn) (h2 : 0 < mn2) :
    (fio_vsyncio_commit sd env).sd.queued = sd.queued ∧
    (fio_vsyncio_getevents (fio_vsyncio_commit sd env).sd mn mx).2 =
      sd.queued ∧
    (fio_vsyncio_getevents (fio_vsyncio_commit sd env).sd mn mx).1.queued =
      0 ∧
    (fio_vsyncio_getevents
      (fio_vsyncio_getevents (fio_vsyncio_commit sd env).sd mn mx).1
      mn2 mx2).2 = 0 ∧
    (fio_vsyncio_getevents sd 0 mx3).2 = 0 ∧
    (fio_vsyncio_getevents sd 0 mx3).1 = sd := by
  have hcq := (fio_vsyncio_commit_frame sd env).1
  have hmn : mn ≠ 0 := by omega
  have hmn2 : mn2 ≠ 0 := by omega
  refine ⟨hcq, ?_, ?_, ?_, ?_, ?_⟩ <;>
    simp [fio_vsyncio_getevents, hmn, hmn2, hcq]

/-- Witness for C8: commit of the three-request batch followed by two polls
returns 3 then 0; a zero-min poll returns 0 and changes nothing. -/
theorem poll_behaviour_witness :
    (fio_vsyncio_commit sd3 envOK).sd.queued = sd3.queued ∧
    (fio_vsyncio_getevents (fio_vsyncio_commit sd3 envOK).sd 1 4).2 =
      sd3.queued ∧
    (fio_vsyncio_getevents (fio_vsyncio_commit sd3 envOK).sd 1 4).1.queued =
      0 ∧
    (fio_vsyncio_getevents
      (fio_vsyncio_getevents (fio_vsyncio_commit sd3 envOK).sd 1 4).1
      1 4).2 = 0 ∧
    (fio_vsyncio_getevents sd3 0 4).2 = 0 ∧
    (fio_vsyncio_getevents sd3 0 4).1 = sd3 :=
  poll_behaviour sd3 envOK 1 4 1 4 4 (by decide) (by decide)
